import Mathlib

/-!
Verification of the yc_scraper pipeline (src/yc_scraper/scraper.py).

The development shallowly embeds the pure core of the scraper: JSON-like
values, Python-dict field mappings (insertion-ordered association lists),
the two-strategy merge rule, the list-to-display-string serialization, the
heuristic HTML fallback's dictionary assembly, the per-target retry loop,
queue seeding and resume, the worker loop's accounting, the final
ordered-row assembly, and the atomic checkpoint save.  Network access,
BeautifulSoup document scanning and JSON text parsing are external
libraries; where a source function consumes their results, the embedding
takes those results as explicit parameters (documented at each
definition) and translates the source's own logic faithfully.
-/

/-- A JSON-like Python value as stored in the scraper's dictionaries:
None, bool, int, str, list, or dict (insertion-ordered). -/
inductive Value where
  | null
  | bool (b : Bool)
  | int (n : Int)
  | str (s : String)
  | list (vs : List Value)
  | obj (fields : List (String × Value))

/-- A Python dict with string keys, modelled as an insertion-ordered
association list.  All dicts built by the scraper have pairwise-distinct
keys (a real dict cannot hold duplicates); theorems that depend on this
take it as a hypothesis. -/
abbrev FieldMap := List (String × Value)

/-- A finalized per-target row (same representation as a field mapping). -/
abbrev Row := FieldMap

/-- The shared result map: target identifier to finalized row
(the variable named results in the source). -/
abbrev RMap := List (String × Row)

/-- Python d[k] lookup (returning none when the key is absent).
Finds the first binding, which is the only one for genuine dicts. -/
def alookup {α : Type} (m : List (String × α)) (k : String) : Option α :=
  match m with
  | [] => none
  | (k', v) :: rest => if k' = k then some v else alookup rest k

/-- Python d[k] = v assignment: replace the value in place if the key is
present (a dict keeps the key's original position), else append. -/
def aInsert {α : Type} (m : List (String × α)) (k : String) (v : α) :
    List (String × α) :=
  match m with
  | [] => [(k, v)]
  | (k', v') :: rest =>
      if k' = k then (k', v) :: rest else (k', v') :: aInsert rest k v

theorem alookup_aInsert_self {α : Type} (m : List (String × α)) (k : String)
    (v : α) : alookup (aInsert m k v) k = some v := by
  induction m with
  | nil => simp [aInsert, alookup]
  | cons kv rest ih =>
      obtain ⟨k', v'⟩ := kv
      by_cases h : k' = k
      · simp [aInsert, alookup, h]
      · simp [aInsert, alookup, h, ih]

theorem alookup_aInsert_ne {α : Type} (m : List (String × α)) (k k' : String)
    (v : α) (h : k' ≠ k) : alookup (aInsert m k' v) k = alookup m k := by
  induction m with
  | nil => simp [aInsert, alookup, h]
  | cons kv rest ih =>
      obtain ⟨k0, v0⟩ := kv
      by_cases h0 : k0 = k'
      · subst h0; simp [aInsert, alookup, h]
      · simp [aInsert, alookup, h0, ih]

theorem alookup_eq_none_of_not_mem {α : Type} (m : List (String × α))
    (k : String) (h : k ∉ m.map Prod.fst) : alookup m k = none := by
  induction m with
  | nil => rfl
  | cons kv rest ih =>
      obtain ⟨k', v'⟩ := kv
      simp only [List.map_cons, List.mem_cons] at h
      push_neg at h
      have hne : k' ≠ k := fun e => h.1 e.symm
      simp [alookup, hne, ih h.2]

/-- The emptiness test of merge_preferring_left, scraper.py line 228:
out[k] in (None, "", [], {}).  Python's in on this tuple is structural
equality, so it holds exactly for None, the empty string, the empty list
and the empty dict (never for bools or ints). -/
def isEmptyVal : Value → Bool
  | .null => true
  | .str s => s == ""
  | .list vs => vs.isEmpty
  | .obj fs => fs.isEmpty
  | .bool _ => false
  | .int _ => false

/-- scraper.py lines 225-230: start from a copy of a, then take b's value
for every key that is missing from a or empty in a. -/
def merge_preferring_left (a b : FieldMap) : FieldMap :=
  b.foldl
    (fun out kv =>
      match alookup out kv.1 with
      | none => aInsert out kv.1 kv.2
      | some v0 => if isEmptyVal v0 then aInsert out kv.1 kv.2 else out)
    a

/-- Field-by-field characterization of merge_preferring_left at any key,
assuming b is a genuine dict (pairwise-distinct keys): a non-empty value
of a always wins; a missing key falls through to b; an empty value of a
is replaced by b's value when b has the key, and kept otherwise. -/
theorem alookup_merge (a b : FieldMap) (k : String)
    (hb : (b.map Prod.fst).Nodup) :
    alookup (merge_preferring_left a b) k =
      match alookup a k, alookup b k with
      | some v, some w => if isEmptyVal v then some w else some v
      | some v, none => some v
      | none, ob => ob := by
  induction b generalizing a with
  | nil => cases h : alookup a k <;> simp [merge_preferring_left, alookup, h]
  | cons kv rest ih =>
      obtain ⟨k1, w1⟩ := kv
      simp only [List.map_cons, List.nodup_cons] at hb
      have hstep : merge_preferring_left a ((k1, w1) :: rest) =
          merge_preferring_left
            (match alookup a k1 with
             | none => aInsert a k1 w1
             | some v0 => if isEmptyVal v0 then aInsert a k1 w1 else a)
            rest := rfl
      rw [hstep, ih _ hb.2]
      by_cases hk : k1 = k
      · subst hk
        have hrest : alookup rest k1 = none :=
          alookup_eq_none_of_not_mem rest k1 hb.1
        cases ha : alookup a k1 with
        | none => simp [ha, hrest, alookup, alookup_aInsert_self]
        | some v =>
            by_cases he : isEmptyVal v
            · simp [ha, he, hrest, alookup, alookup_aInsert_self]
            · simp [ha, he, hrest, alookup]
      · have hhead : alookup ((k1, w1) :: rest) k = alookup rest k := by
          simp [alookup, hk]
        cases ha : alookup a k1 with
        | none => simp [ha, hhead, alookup_aInsert_ne _ _ _ _ hk]
        | some v =>
            by_cases he : isEmptyVal v
            · simp [ha, he, hhead, alookup_aInsert_ne _ _ _ _ hk]
            · simp [ha, he, hhead]

/-- C2 counterexample: the claim as stated fails when a key holds an empty
value in the structured output a while the fallback b lacks the key.  With
a having "x" bound to the empty string and b the empty dict, the merged
mapping still has "x" bound to the empty string, whereas b has no value at
"x", so the merged value at "x" does not equal b's value at "x". -/
theorem c2_cex :
    ¬ (alookup (merge_preferring_left [("x", Value.str "")] ([] : FieldMap)) "x"
        = alookup ([] : FieldMap) "x") := by
  simp [merge_preferring_left, alookup]

/-- C2 (amended): for dicts a and b (b with pairwise-distinct keys, as any
Python dict), the merged value at any field k is: a's value when that value
is non-empty (not null, not the empty string, list or mapping) — regardless
of b; b's value at k when k is absent from a; b's value at k when a's value
at k is empty and b has the key; and a's (empty) value when a's value at k
is empty but k is absent from b. -/
theorem c2_merge_field_rule (a b : FieldMap) (k : String)
    (hb : (b.map Prod.fst).Nodup) :
    alookup (merge_preferring_left a b) k =
      match alookup a k, alookup b k with
      | some v, some w => if isEmptyVal v then some w else some v
      | some v, none => some v
      | none, ob => ob :=
  alookup_merge a b k hb

/-- Witness for c2_merge_field_rule at a concrete input: a binds "k" to a
non-empty string, b binds "k" to another string, and the merge keeps a's
value. -/
theorem c2_merge_field_rule_witness :
    alookup (merge_preferring_left [("k", Value.str "s")]
        [("k", Value.str "t")]) "k" =
      match alookup [("k", Value.str "s")] "k",
          alookup [("k", Value.str "t")] "k" with
      | some v, some w => if isEmptyVal v then some w else some v
      | some v, none => some v
      | none, ob => ob :=
  c2_merge_field_rule [("k", Value.str "s")] [("k", Value.str "t")] "k"
    (by decide)

/-- Python str.strip with no argument: remove leading and trailing
whitespace.  Written over the underlying character list so that concrete
instances reduce inside the kernel. -/
def pyStrip (s : String) : String :=
  ⟨((s.data.dropWhile Char.isWhitespace).reverse.dropWhile
      Char.isWhitespace).reverse⟩

/-- Python dict.fromkeys deduplication: keep the first occurrence of each
element, preserving order.  The seen accumulator holds elements already
emitted. -/
def dedupFirst (seen : List String) : List String → List String
  | [] => []
  | x :: xs =>
      if seen.contains x then dedupFirst seen xs
      else x :: dedupFirst (x :: seen) xs

/-- scraper.py lines 63-65: keep the values that are non-empty and
non-blank, strip each, deduplicate preserving order, join with a
semicolon-space separator. -/
def as_semicolon (values : List String) : String :=
  let cleaned :=
    (values.filter fun v => !v.data.isEmpty && !(pyStrip v).data.isEmpty).map
      pyStrip
  String.intercalate "; " (dedupFirst [] cleaned)

/-- Modelled from the spec: trim each element, drop elements that are empty
after trimming, deduplicate while preserving first-seen order, join with a
semicolon-space separator. -/
def specListJoin (values : List String) : String :=
  String.intercalate "; "
    (dedupFirst [] ((values.map pyStrip).filter fun v => !v.data.isEmpty))

theorem pyStrip_empty : pyStrip ⟨[]⟩ = ⟨[]⟩ := rfl

theorem cleaned_eq_map_filter (values : List String) :
    (values.filter fun v => !v.data.isEmpty && !(pyStrip v).data.isEmpty).map
        pyStrip
      = (values.map pyStrip).filter fun v => !v.data.isEmpty := by
  induction values with
  | nil => rfl
  | cons v vs ih =>
      obtain ⟨d⟩ := v
      cases d with
      | nil => simpa [List.filter_cons, pyStrip_empty] using ih
      | cons c cs =>
          by_cases h : (pyStrip ⟨c :: cs⟩).data.isEmpty
          · simp [List.filter_cons, List.map_cons, h, ih]
          · simp [List.filter_cons, List.map_cons, h, ih]

/-- C9: the list-to-display-string serialization trims each element, drops
elements empty after trimming, removes duplicates keeping first-seen order
and joins with a semicolon-space separator (stated as agreement with the
spec-worded specListJoin on every input), and in particular the input
consisting of "a", the empty string, "a" again and "b" serializes to
"a; b". -/
theorem c9_as_semicolon_spec :
    (∀ values : List String, as_semicolon values = specListJoin values)
    ∧ as_semicolon ["a", "", "a", "b"] = "a; b" := by
  constructor
  · intro values
    unfold as_semicolon specListJoin
    rw [cleaned_eq_map_filter]
  · decide

/-- Character-list test for the Python expression needle in hay restricted
to the leading position: does the first list start the second? -/
def listHasPre : List Char → List Char → Bool
  | [], _ => true
  | _ :: _, [] => false
  | a :: as, b :: bs => a == b && listHasPre as bs

/-- Helper for containsSub: does the needle occur in the haystack at any
position? -/
def hasSubAux (needle : List Char) : List Char → Bool
  | [] => needle.isEmpty
  | b :: bs => listHasPre needle (b :: bs) || hasSubAux needle bs

/-- Python's needle in hay substring test. -/
def containsSub (hay needle : String) : Bool := hasSubAux needle.data hay.data

/-- Python's hay.startswith(needle). -/
def strStartsWith (s needle : String) : Bool := listHasPre needle.data s.data

theorem listHasPre_iff (n h : List Char) : listHasPre n h = true ↔ n <+: h := by
  induction n generalizing h with
  | nil => simp [listHasPre]
  | cons a as ih =>
      cases h with
      | nil => simp [listHasPre]
      | cons b bs => simp [listHasPre, List.cons_prefix_cons, ih]

theorem hasSubAux_iff (n h : List Char) : hasSubAux n h = true ↔ n <:+: h := by
  induction h with
  | nil => simp [hasSubAux, List.isEmpty_iff, List.infix_nil]
  | cons b bs ih =>
      simp [hasSubAux, List.infix_cons_iff, listHasPre_iff, ih]

theorem containsSub_iff (hay needle : String) :
    containsSub hay needle = true ↔ needle.data <:+: hay.data :=
  hasSubAux_iff needle.data hay.data

/-- Value of a digit run, most significant first. -/
def digitsVal (ds : List Char) : Nat :=
  ds.foldl (fun n c => n * 10 + (c.toNat - 48)) 0

/-- Is the list a non-empty run of decimal digits? -/
def allDigits (ds : List Char) : Bool := !ds.isEmpty && ds.all Char.isDigit

/-- Python int(s) on a stripped string: an optional sign followed by
digits. -/
def parseIntChars (ds : List Char) : Option Int :=
  match ds with
  | '-' :: rest =>
      if allDigits rest then some (-(Int.ofNat (digitsVal rest))) else none
  | '+' :: rest =>
      if allDigits rest then some (Int.ofNat (digitsVal rest)) else none
  | _ => if allDigits ds then some (Int.ofNat (digitsVal ds)) else none

/-- The first maximal digit run of the string, as in re.search of a digit
pattern. -/
def firstDigitRun : List Char → Option Nat
  | [] => none
  | c :: cs =>
      if c.isDigit then some (digitsVal ((c :: cs).takeWhile Char.isDigit))
      else firstDigitRun cs

/-- scraper.py lines 52-60 (norm_int) at the optional-string inputs the
label scan produces: None stays absent; otherwise try int() on the
stripped text, else fall back to the first digit run. -/
def norm_int (x : Option String) : Option Int :=
  match x with
  | none => none
  | some s =>
      match parseIntChars (pyStrip s).data with
      | some n => some n
      | none => (firstDigitRun s.data).map Int.ofNat

/-- Query results of the BeautifulSoup document scans used by
parse_html_fallback (scraper.py lines 68-124).  BeautifulSoup is an
external library, so the embedding takes the results of its primitive
queries as the document model: labelValue l is the stripped text of the
element following the first string matching label l with an optional
colon (lines 76-82, for a single label); hrefs lists the href attribute
of every anchor carrying one, in document order (lines 96 and 106);
founderSibTexts lists the get_text results of the previous/next siblings
around each string matching "Founder", in scan order, before the filter
of lines 116-120. -/
structure Soup where
  labelValue : String → Option String
  hrefs : List String
  founderSibTexts : List String

/-- scraper.py lines 74-83: the value for the first label whose lookup
succeeds. -/
def get_value_by_label (soup : Soup) (labels : List String) : Option String :=
  labels.findSome? soup.labelValue

/-- scraper.py lines 96-100: the for/break loop choosing the fallback
website value — the first href that starts with "http" and does not
contain "ycombinator.com" as a substring. -/
def fallbackWebsite : List String → Option String
  | [] => none
  | href :: rest =>
      if strStartsWith href "http" && !containsSub href "ycombinator.com" then
        some href
      else fallbackWebsite rest

/-- Python str.lower(). -/
def strToLower (s : String) : String := ⟨s.data.map Char.toLower⟩

/-- Number of words of Python str.split() (maximal non-whitespace runs);
the flag records whether the scan is inside a word. -/
def wordsAux : List Char → Bool → Nat
  | [], _ => 0
  | c :: cs, inWord =>
      if c.isWhitespace then wordsAux cs false
      else (if inWord then 0 else 1) + wordsAux cs true

/-- len(txt.split()) of scraper.py line 118. -/
def wordCount (s : String) : Nat := wordsAux s.data false

/-- The per-candidate filter of scraper.py lines 116-120: non-empty text,
at most five words, not itself containing "Founder" (case-insensitive
regex search, i.e. a substring test on the lowercased text). -/
def founderOk (txt : String) : Bool :=
  !txt.data.isEmpty && decide (wordCount txt ≤ 5)
    && !containsSub (strToLower txt) "founder"

/-- scraper.py lines 110-121: the founder-name candidates that pass the
filter, in scan order. -/
def founderNames (sibTexts : List String) : List String :=
  sibTexts.filter founderOk

/-- An optional string stored into a Python dict slot (absent becomes
None). -/
def optStrVal : Option String → Value
  | none => Value.null
  | some s => Value.str s

/-- An optional integer stored into a Python dict slot. -/
def optIntVal : Option Int → Value
  | none => Value.null
  | some n => Value.int n

/-- scraper.py lines 68-124: the fallback field mapping, with keys in the
source's insertion order.  The website key is present only when the link
loop found a match (lines 96-100); founders and founders_linkedin are
always present, bound to None when their lists are empty (Python's
founders or None, lines 122-123).  Note the fallback stores founder names
under the key "founders". -/
def parse_html_fallback (soup : Soup) : FieldMap :=
  let founders := founderNames soup.founderSibTexts
  let linkedin := soup.hrefs.filter fun h => containsSub h "linkedin.com"
  [("primary_partner", optStrVal (get_value_by_label soup ["Primary Partner"])),
   ("status", optStrVal (get_value_by_label soup ["Status"])),
   ("location", optStrVal (get_value_by_label soup ["Location"])),
   ("founded_year", optIntVal (norm_int (get_value_by_label soup ["Founded"]))),
   ("team_size",
     optIntVal (norm_int (get_value_by_label soup ["Team Size", "Team size"]))),
   ("batch", optStrVal (get_value_by_label soup ["Batch"]))]
  ++ (match fallbackWebsite soup.hrefs with
      | some w => [("website", Value.str w)]
      | none => [])
  ++ [("founders",
        if founders.isEmpty then Value.null
        else Value.list (founders.map Value.str)),
      ("founders_linkedin",
        if linkedin.isEmpty then Value.null
        else Value.list (linkedin.map Value.str))]

/-- Unwrap a list-valued website to its first element, scraper.py line
148-149 (the source indexes website[0]; an empty list, which would raise
IndexError there, yields no value here). -/
def unwrapFirst (v : Value) : Option Value :=
  match v with
  | Value.list vs => vs.head?
  | _ => some v

/-- Unwrap a dict-valued website to its url entry when present,
scraper.py lines 150-151. -/
def unwrapUrl (v : Value) : Value :=
  match v with
  | Value.obj fs =>
      match alookup fs "url" with
      | some u => u
      | none => Value.obj fs
  | _ => v

/-- scraper.py line 152: keep the candidate only if it is a non-empty
string not containing "ycombinator.com". -/
def acceptWebsite (v : Value) : Option String :=
  match v with
  | Value.str s =>
      if !s.data.isEmpty && !containsSub s "ycombinator.com" then some s
      else none
  | _ => none

/-- scraper.py lines 146-153: the website field of the structured
extraction, as a function of the value found by the deep key search over
the parsed page data (the search runs over JSON produced by an external
parser, so its result is the parameter). -/
def structuredWebsite (w : Option Value) : Option String :=
  match w with
  | none => none
  | some v =>
      match unwrapFirst v with
      | none => none
      | some v2 => acceptWebsite (unwrapUrl v2)

/-- The list of characters remaining after the first scheme separator
"://" (used only for the spec-side host notion). -/
def afterSchemeSep : List Char → List Char
  | [] => []
  | c :: rest =>
      if listHasPre [':', '/', '/'] (c :: rest) then rest.drop 2
      else afterSchemeSep rest

/-- Modelled from the spec: the "target host" of a URL — the text between
the scheme separator and the next path, query, fragment or port
delimiter.  The source itself never computes hosts (it tests substrings);
this definition renders the spec's wording for comparison. -/
def hostOf (url : String) : String :=
  ⟨(afterSchemeSep url.data).takeWhile fun c =>
      c != '/' && c != '?' && c != '#' && c != ':'⟩

theorem afterSchemeSep_suffix (l : List Char) : afterSchemeSep l <:+ l := by
  induction l with
  | nil => simp [afterSchemeSep]
  | cons c rest ih =>
      by_cases h : listHasPre [':', '/', '/'] (c :: rest) = true
      · simp only [afterSchemeSep, h, if_true]
        exact (List.drop_suffix 2 rest).trans (List.suffix_cons c rest)
      · simp only [afterSchemeSep, h, if_false]
        exact ih.trans (List.suffix_cons c rest)

theorem hostOf_infix (url : String) : (hostOf url).data <:+: url.data :=
  (List.takeWhile_prefix _).isInfix.trans (afterSchemeSep_suffix _).isInfix

/-- A URL that does not contain "ycombinator.com" as a substring cannot
have a host that does (in particular its host is not the scraped YC
pages' host). -/
theorem host_ne_of_not_containsSub (u host : String)
    (hu : containsSub u "ycombinator.com" = false)
    (hh : containsSub host "ycombinator.com" = true) : hostOf u ≠ host := by
  intro he
  have h1 : ("ycombinator.com" : String).data <:+: host.data :=
    (containsSub_iff _ _).mp hh
  have h2 : (hostOf u).data <:+: u.data := hostOf_infix u
  rw [he] at h2
  have h3 : ("ycombinator.com" : String).data <:+: u.data := h1.trans h2
  have h4 : containsSub u "ycombinator.com" = true :=
    (containsSub_iff _ _).mpr h3
  rw [hu] at h4
  exact Bool.noConfusion h4

theorem acceptWebsite_sound (v : Value) (u : String)
    (h : acceptWebsite v = some u) :
    containsSub u "ycombinator.com" = false := by
  cases v <;> simp only [acceptWebsite] at h <;> try exact Option.noConfusion h
  split at h
  · next hc =>
      obtain rfl : _ = u := Option.some.inj h
      simp only [Bool.and_eq_true, Bool.not_eq_true'] at hc
      exact hc.2
  · exact Option.noConfusion h

theorem structuredWebsite_sound (w : Option Value) (u : String)
    (h : structuredWebsite w = some u) :
    containsSub u "ycombinator.com" = false := by
  cases w with
  | none => exact Option.noConfusion h
  | some v =>
      simp only [structuredWebsite] at h
      cases hf : unwrapFirst v with
      | none => rw [hf] at h; exact Option.noConfusion h
      | some v2 => rw [hf] at h; exact acceptWebsite_sound _ _ h

theorem fallbackWebsite_eq_find (hrefs : List String) :
    fallbackWebsite hrefs =
      hrefs.find? fun href =>
        strStartsWith href "http" && !containsSub href "ycombinator.com" := by
  induction hrefs with
  | nil => rfl
  | cons href rest ih =>
      by_cases h : (strStartsWith href "http"
          && !containsSub href "ycombinator.com") = true
      · simp [fallbackWebsite, List.find?_cons, h]
      · rw [Bool.not_eq_true] at h
        simp [fallbackWebsite, List.find?_cons, h, ih]

theorem fallbackWebsite_sound (hrefs : List String) (u : String)
    (h : fallbackWebsite hrefs = some u) :
    containsSub u "ycombinator.com" = false := by
  rw [fallbackWebsite_eq_find] at h
  have hp := List.find?_some h
  simp only [Bool.and_eq_true, Bool.not_eq_true'] at hp
  exact hp.2

/-- Modelled from the spec: the first link of the document whose target
host differs from the scraped site's host (the claim's reading of the
fallback website rule), for comparison with the code's substring-based
rule. -/
def specFallbackWebsiteByHost (siteHost : String) (hrefs : List String) :
    Option String :=
  hrefs.find? fun href => strStartsWith href "http" && hostOf href != siteHost

/-- C8 counterexample: on a document whose first link is an external URL
that merely mentions "ycombinator.com" in its query string, the code
skips that link (substring test) while the claim's host-comparison rule
selects it, so the fallback website is not the first link whose target
host differs from the scraped site's host. -/
theorem c8_cex :
    fallbackWebsite
        ["https://example.com/?via=ycombinator.com", "https://other.org"]
      ≠ specFallbackWebsiteByHost "www.ycombinator.com"
        ["https://example.com/?via=ycombinator.com", "https://other.org"] := by
  decide

/-- C8 (amended): a website produced by either extraction strategy never
contains "ycombinator.com" as a substring — in particular its host is
never a host containing "ycombinator.com", such as the scraped YC pages'
host — and the heuristic fallback's website value is the first link that
starts with "http" and does not contain "ycombinator.com" as a
substring. -/
theorem c8_website_rule (wv : Option Value) (hrefs : List String)
    (u1 u2 ycHost : String)
    (h1 : structuredWebsite wv = some u1)
    (h2 : fallbackWebsite hrefs = some u2)
    (h3 : containsSub ycHost "ycombinator.com" = true) :
    containsSub u1 "ycombinator.com" = false ∧ hostOf u1 ≠ ycHost
    ∧ containsSub u2 "ycombinator.com" = false ∧ hostOf u2 ≠ ycHost
    ∧ fallbackWebsite hrefs =
        hrefs.find? fun href =>
          strStartsWith href "http" && !containsSub href "ycombinator.com" := by
  have s1 := structuredWebsite_sound wv u1 h1
  have s2 := fallbackWebsite_sound hrefs u2 h2
  exact ⟨s1, host_ne_of_not_containsSub u1 ycHost s1 h3,
    s2, host_ne_of_not_containsSub u2 ycHost s2 h3,
    fallbackWebsite_eq_find hrefs⟩

/-- Witness for c8_website_rule: both strategies yield the external URL
"https://example.org" and the YC host is "www.ycombinator.com". -/
theorem c8_website_rule_witness :
    containsSub "https://example.org" "ycombinator.com" = false
    ∧ hostOf "https://example.org" ≠ "www.ycombinator.com"
    ∧ containsSub "https://example.org" "ycombinator.com" = false
    ∧ hostOf "https://example.org" ≠ "www.ycombinator.com"
    ∧ fallbackWebsite ["https://example.org"] =
        ["https://example.org"].find? fun href =>
          strStartsWith href "http" && !containsSub href "ycombinator.com" :=
  c8_website_rule (some (Value.str "https://example.org"))
    ["https://example.org"] "https://example.org" "https://example.org"
    "www.ycombinator.com" (by decide) (by decide) (by decide)

/-- Python dict.get(k): the value at k, or None when absent
(scraper.py lines 274-285). -/
def getOrNull (m : FieldMap) (k : String) : Value :=
  (alookup m k).getD Value.null

/-- The string elements of a stored list, as passed to as_semicolon by
scraper.py lines 267 and 271.  Every list the scraper stores under these
keys holds strings; a non-string element would raise inside as_semicolon
in the source and is outside the embedding's domain. -/
def valueStrings (vs : List Value) : List String :=
  vs.map fun v =>
    match v with
    | Value.str s => s
    | _ => ""

/-- scraper.py lines 259-286: the success-path finalization of
scrape_one.  Merge the structured output sout with the fallback output
fout (the source's if not out: out = {} replaces an empty dict by an
empty dict and is a no-op), serialize the active_founders and
founders_linkedin entries when they are lists, then build the output
mapping with the fixed keys of lines 274-285 via dict.get. -/
def finalizeRow (url : String) (sout fout : FieldMap) : Row :=
  let out0 := merge_preferring_left sout fout
  let out1 :=
    match alookup out0 "active_founders" with
    | some (Value.list vs) =>
        aInsert out0 "Active Founders"
          (Value.str (as_semicolon (valueStrings vs)))
    | _ => out0
  let out :=
    match alookup out1 "founders_linkedin" with
    | some (Value.list vs) =>
        aInsert out1 "Founders LinkedIn Link"
          (Value.str (as_semicolon (valueStrings vs)))
    | _ => out1
  [("YC Link", Value.str url),
   ("Website", getOrNull out "website"),
   ("Status", getOrNull out "status"),
   ("Primary Partner", getOrNull out "primary_partner"),
   ("Founded Year", getOrNull out "founded_year"),
   ("Team Size", getOrNull out "team_size"),
   ("Batch", getOrNull out "batch"),
   ("Location", getOrNull out "location"),
   ("Active Founders", getOrNull out "Active Founders"),
   ("Founders LinkedIn Link", getOrNull out "Founders LinkedIn Link")]

/-- A concrete page scan for C3: no label matches, no links, and a single
short founder-name candidate next to a "Founder" label. -/
def c3Soup : Soup :=
  { labelValue := fun _ => none
    hrefs := []
    founderSibTexts := ["Ada Lovelace"] }

/-- C3: the code drops the heuristic fallback's founder names.  On a page
with no structured data (structured extraction yields the empty mapping,
hence no founder names) whose fallback scan finds the founder name
"Ada Lovelace", the fallback stores the names under the key "founders"
(line 122), but the finalization of scrape_one reads only
"active_founders" (line 266), so the finalized Active Founders field is
None instead of the serialized name the claim requires. -/
theorem c3_fallback_founders_dropped :
    alookup (parse_html_fallback c3Soup) "founders"
        = some (Value.list [Value.str "Ada Lovelace"])
    ∧ as_semicolon ["Ada Lovelace"] = "Ada Lovelace"
    ∧ alookup
        (finalizeRow "https://www.ycombinator.com/companies/x" []
          (parse_html_fallback c3Soup))
        "Active Founders" = some Value.null := by
  refine ⟨rfl, by decide, rfl⟩

/-- Python's if html: test on a fetch result, scraper.py line 257: both
None (failed fetch) and an empty body count as no content. -/
def truthyHtml : Option String → Option String
  | some s => if s.data.isEmpty then none else some s
  | none => none

/-- scraper.py lines 248-293: the retry loop of scrape_one, from the fetch
attempt numbered attempt onwards.  fetchAt n gives the outcome of the nth
fetch call (the network is external to the embedding); extract and fallb
are the page-level extraction functions applied on success
(extract_from_next_data and parse_html_fallback).  Returns the number of
the attempt on which the loop stopped, together with the resulting
mapping; the backoff sleeps do not affect the result and are not
modelled. -/
def scrapeLoop (extract fallb : String → FieldMap)
    (fetchAt : Nat → Option String) (url : String) (retries attempt : Nat) :
    Nat × Row :=
  match truthyHtml (fetchAt attempt) with
  | some html => (attempt, finalizeRow url (extract html) (fallb html))
  | none =>
      if retries < attempt then (attempt, [("YC Link", Value.str url)])
      else scrapeLoop extract fallb fetchAt url retries (attempt + 1)
  termination_by retries + 1 - attempt
  decreasing_by omega

/-- scraper.py lines 248-254: scrape_one starts counting attempts at 1
(attempt += 1 before the first fetch); the source's default retry count
is 4. -/
def scrape_one (extract fallb : String → FieldMap)
    (fetchAt : Nat → Option String) (url : String) (retries : Nat) :
    Nat × Row :=
  scrapeLoop extract fallb fetchAt url retries 1

/-- C4: when every fetch attempt fails, scrape_one with retries = 4 stops
at attempt 5 (1 initial call plus 4 retries) and returns the minimal
mapping holding only the target identifier key. -/
theorem c4_retry_exhaustion (extract fallb : String → FieldMap)
    (fetchAt : Nat → Option String) (url : String)
    (hfail : ∀ n, truthyHtml (fetchAt n) = none) :
    scrape_one extract fallb fetchAt url 4
      = (5, [("YC Link", Value.str url)]) := by
  simp [scrape_one, scrapeLoop, hfail]

/-- Witness for c4_retry_exhaustion: the always-failing fetch oracle. -/
theorem c4_retry_exhaustion_witness :
    scrape_one (fun _ => []) (fun _ => []) (fun _ => none) "u" 4
      = (5, [("YC Link", Value.str "u")]) :=
  c4_retry_exhaustion (fun _ => []) (fun _ => []) (fun _ => none) "u"
    (fun _ => rfl)

/-- The minimal placeholder mapping holding only the target identifier
(scraper.py lines 289 and 470). -/
def placeholderRow (url : String) : Row := [("YC Link", Value.str url)]

/-- scraper.py line 470: the ordered list handed to the export
collaborator — one entry per input link, in input order, looked up in the
results map with the placeholder as default. -/
def assembleRows (results : RMap) (links : List String) : List Row :=
  links.map fun url => (alookup results url).getD (placeholderRow url)

/-- Python's enumerate from a start index. -/
def pyEnum (i : Nat) : List String → List (Nat × String)
  | [] => []
  | x :: xs => (i, x) :: pyEnum (i + 1) xs

/-- scraper.py lines 437-440: the queue is seeded with the (index, url)
pairs of every link whose url is not already a key of the (possibly
resumed) results map. -/
def seedQueue (links : List String) (results : RMap) : List (Nat × String) :=
  (pyEnum 0 links).filter fun p => (alookup results p.2).isNone

/-- The keys written by workers during a run: each seeded queue item is
processed by exactly one worker, which performs the single write
results[url] = data for its url (scraper.py line 318). -/
def runWriteKeys (links : List String) (results : RMap) : List String :=
  (seedQueue links results).map Prod.snd

/-- The effect of the workers' writes on the shared results dict, in a
given completion order of the writes. -/
def runWrites (init : RMap) (writes : List (String × Row)) : RMap :=
  writes.foldl (fun m w => aInsert m w.1 w.2) init

theorem assembleRows_get? (results : RMap) (links : List String) (i : Nat)
    (h : i < links.length) :
    (assembleRows results links)[i]? =
      some ((alookup results links[i]).getD (placeholderRow links[i])) := by
  simp [assembleRows, List.getElem?_eq_getElem h]

theorem mem_seedQueue_isNone (links : List String) (r : RMap)
    (p : Nat × String) (h : p ∈ seedQueue links r) : alookup r p.2 = none := by
  have := (List.mem_filter.mp h).2
  simpa [Option.isNone_iff_eq_none] using this

theorem mem_runWriteKeys_isNone (links : List String) (r : RMap) (u : String)
    (h : u ∈ runWriteKeys links r) : alookup r u = none := by
  obtain ⟨p, hp, rfl⟩ := List.mem_map.mp h
  exact mem_seedQueue_isNone links r p hp

theorem alookup_runWrites_of_ne (init : RMap) (writes : List (String × Row))
    (k : String) (h : ∀ w ∈ writes, w.1 ≠ k) :
    alookup (runWrites init writes) k = alookup init k := by
  induction writes generalizing init with
  | nil => rfl
  | cons w rest ih =>
      have hstep : runWrites init (w :: rest)
          = runWrites (aInsert init w.1 w.2) rest := rfl
      rw [hstep, ih _ fun w' hw' => h w' (List.mem_cons_of_mem w hw'),
        alookup_aInsert_ne _ _ _ _ (h w (List.mem_cons_self w rest))]

theorem pyEnum_map_snd (i : Nat) (l : List String) :
    (pyEnum i l).map Prod.snd = l := by
  induction l generalizing i with
  | nil => rfl
  | cons x xs ih => simp [pyEnum, ih]

theorem runWriteKeys_sublist (links : List String) (r : RMap) :
    List.Sublist (runWriteKeys links r) links := by
  have h1 : List.Sublist (runWriteKeys links r)
      ((pyEnum 0 links).map Prod.snd) :=
    List.Sublist.map Prod.snd (List.filter_sublist _)
  rwa [pyEnum_map_snd] at h1

theorem alookup_runWrites_self (writes : List (String × Row)) (k : String)
    (r : Row) (init : RMap) (hk : (writes.map Prod.fst).Nodup)
    (hmem : (k, r) ∈ writes) :
    alookup (runWrites init writes) k = some r := by
  induction writes generalizing init with
  | nil => cases hmem
  | cons w rest ih =>
      simp only [List.map_cons, List.nodup_cons] at hk
      have hstep : runWrites init (w :: rest)
          = runWrites (aInsert init w.1 w.2) rest := rfl
      rcases List.mem_cons.mp hmem with heq | hrest
      · subst heq
        have hk1 : k ∉ rest.map Prod.fst := hk.1
        have hne : ∀ w' ∈ rest, w'.1 ≠ k := fun w' hw' ew' =>
          hk1 (ew' ▸ List.mem_map_of_mem Prod.fst hw')
        rw [hstep, alookup_runWrites_of_ne _ _ _ hne]
        exact alookup_aInsert_self init k r
      · exact hstep ▸ ih _ hk.2 hrest

/-- C1: the final output handed to the export collaborator has exactly one
entry per input target (same length, and the entry at every input
position i is determined by the target at position i — hence no
duplicates and no omissions), and a target whose identifier is absent
from the results map at assembly time is represented by the minimal
placeholder mapping holding only its identifier (the getD default). -/
theorem c1_ordered_output (results : RMap) (links : List String) (i : Nat)
    (h : i < links.length) :
    (assembleRows results links).length = links.length
    ∧ (assembleRows results links)[i]? =
        some ((alookup results links[i]).getD (placeholderRow links[i])) :=
  ⟨by simp [assembleRows], assembleRows_get? results links i h⟩

/-- Witness for c1_ordered_output: a single unresolved target yields its
placeholder entry. -/
theorem c1_ordered_output_witness :
    (assembleRows [] ["u"]).length = (["u"] : List String).length
    ∧ (assembleRows [] ["u"])[0]? =
        some ((alookup ([] : RMap) "u").getD (placeholderRow "u")) :=
  c1_ordered_output [] ["u"] 0 (by decide)

/-- C5: with a checkpoint binding target T1, a resumed run never enqueues
T1 (no queue item carries it, for any index), every worker write is keyed
by a seeded url so the results entry for T1 stays the checkpointed value,
and the final output entry at T1's input position equals that
checkpointed value. -/
theorem c5_resume_skips_checkpointed (links : List String) (ckpt : RMap)
    (T1 : String) (v : Row) (writes : List (String × Row)) (i idx : Nat)
    (h1 : alookup ckpt T1 = some v)
    (h2 : ∀ w ∈ writes, w.1 ∈ runWriteKeys links ckpt)
    (h3 : i < links.length) (h4 : links[i] = T1) :
    (idx, T1) ∉ seedQueue links ckpt
    ∧ alookup (runWrites ckpt writes) T1 = some v
    ∧ (assembleRows (runWrites ckpt writes) links)[i]? = some v := by
  have hnot : (idx, T1) ∉ seedQueue links ckpt := by
    intro hmem
    have := mem_seedQueue_isNone links ckpt (idx, T1) hmem
    rw [h1] at this
    exact Option.noConfusion this
  have hne : ∀ w ∈ writes, w.1 ≠ T1 := by
    intro w hw ew
    have := mem_runWriteKeys_isNone links ckpt w.1 (h2 w hw)
    rw [ew, h1] at this
    exact Option.noConfusion this
  have hval : alookup (runWrites ckpt writes) T1 = some v := by
    rw [alookup_runWrites_of_ne _ _ _ hne, h1]
  refine ⟨hnot, hval, ?_⟩
  rw [assembleRows_get? _ links i h3, h4, hval]
  rfl

/-- Witness for c5_resume_skips_checkpointed: one link, already present in
the checkpoint, no worker writes. -/
theorem c5_resume_skips_checkpointed_witness :
    (0, "t") ∉ seedQueue ["t"] [("t", placeholderRow "t")]
    ∧ alookup (runWrites [("t", placeholderRow "t")] []) "t"
        = some (placeholderRow "t")
    ∧ (assembleRows (runWrites [("t", placeholderRow "t")] []) ["t"])[0]?
        = some (placeholderRow "t") :=
  c5_resume_skips_checkpointed ["t"] [("t", placeholderRow "t")] "t"
    (placeholderRow "t") [] 0 0 rfl (by simp) (by decide) rfl

/-- C6 counterexample: the claim fails for input target lists containing a
duplicate identifier.  With links ["u", "u"] and an empty checkpoint both
queue items carry the key "u", so the run performs two writes to the same
key, and the second write overwrites the first with a different value. -/
theorem c6_cex :
    ¬ (runWriteKeys ["u", "u"] []).Nodup
    ∧ alookup (runWrites [] [("u", placeholderRow "u"), ("u", [])]) "u"
        = some []
    ∧ ([] : Row) ≠ placeholderRow "u" :=
  ⟨by decide, rfl, by simp [placeholderRow]⟩

/-- C6 (amended): provided the input target list has pairwise-distinct
identifiers, for every checkpoint and every interleaving of the workers'
writes — writes is any sequence whose keys are drawn from the seeded
urls, each seeded queue item contributing at most one write, in whatever
completion order the scheduler produced, with omissions allowed for items
whose processing raised (a Subperm of the seeded key sequence) — the
written keys are pairwise distinct (no two workers ever write the same
key) and no written entry is ever overwritten: the final value at a
written key is exactly the value of its unique write. -/
theorem c6_single_write_per_key (links : List String) (ckpt : RMap)
    (writes : List (String × Row)) (k : String) (r : Row)
    (h1 : links.Nodup)
    (h2 : List.Subperm (writes.map Prod.fst) (runWriteKeys links ckpt))
    (h3 : (k, r) ∈ writes) :
    (runWriteKeys links ckpt).Nodup
    ∧ (writes.map Prod.fst).Nodup
    ∧ alookup (runWrites ckpt writes) k = some r := by
  have hnodup : (runWriteKeys links ckpt).Nodup :=
    h1.sublist (runWriteKeys_sublist links ckpt)
  have hkeys : (writes.map Prod.fst).Nodup := by
    obtain ⟨l, hperm, hsub⟩ := h2
    exact hperm.nodup_iff.mp (hnodup.sublist hsub)
  exact ⟨hnodup, hkeys, alookup_runWrites_self writes k r ckpt hkeys h3⟩

/-- Witness for c6_single_write_per_key: two links whose writes complete
in the opposite of seeding order. -/
theorem c6_single_write_per_key_witness :
    (runWriteKeys ["a", "b"] []).Nodup
    ∧ (([("b", placeholderRow "b"),
          ("a", placeholderRow "a")].map Prod.fst).Nodup)
    ∧ alookup
        (runWrites []
          [("b", placeholderRow "b"), ("a", placeholderRow "a")]) "a"
        = some (placeholderRow "a") :=
  c6_single_write_per_key ["a", "b"] []
    [("b", placeholderRow "b"), ("a", placeholderRow "a")] "a"
    (placeholderRow "a") (by decide)
    (by exact ⟨["a", "b"], List.Perm.swap "b" "a" [], List.Sublist.refl _⟩)
    (by simp)

/-- The observable file-system state for the checkpoint save: the content
of the destination path and of the temporary sibling path (absent or
present). -/
structure FS where
  dest : Option String
  tmp : Option String

/-- Opening the temporary sibling path for writing truncates it
(scraper.py line 381, the open of the tmp path in write mode). -/
def openTmp (fs : FS) : FS := { fs with tmp := some "" }

/-- One chunk of serialized output appended to the temporary file
(json.dump streams the serialization to the tmp handle, line 382). -/
def writeChunk (c : String) (fs : FS) : FS :=
  { fs with tmp := some ((fs.tmp.getD "") ++ c) }

/-- The atomic rename of the temporary file over the destination
(line 383, tmp.replace(path)): one indivisible step that installs the
temporary file's content as the destination. -/
def renameStep (fs : FS) : FS := { fs with dest := fs.tmp, tmp := none }

/-- Concatenation of the serialized chunks: the complete serialized
snapshot text. -/
def concatAll : List String → String
  | [] => ""
  | c :: cs => c ++ concatAll cs

/-- scraper.py lines 379-383 (save_checkpoint) as its sequence of
file-system steps: open and truncate the temporary sibling path, write
the serialized data in chunks (the decomposition is arbitrary), then
atomically replace the destination.  The destination is touched by no
step but the final rename. -/
def saveSteps (chunks : List String) : List (FS → FS) :=
  (openTmp :: chunks.map writeChunk) ++ [renameStep]

/-- Run a sequence of file-system steps from an initial state. -/
def runSteps (steps : List (FS → FS)) (fs : FS) : FS :=
  steps.foldl (fun s f => f s) fs

theorem runSteps_dest_of_preserve (steps : List (FS → FS)) (fs : FS)
    (h : ∀ f ∈ steps, ∀ s, (f s).dest = s.dest) :
    (runSteps steps fs).dest = fs.dest := by
  induction steps generalizing fs with
  | nil => rfl
  | cons f rest ih =>
      have hstep : runSteps (f :: rest) fs = runSteps rest (f fs) := rfl
      rw [hstep, ih (f fs) fun g hg s => h g (List.mem_cons_of_mem f hg) s,
        h f (List.mem_cons_self f rest) fs]

theorem writePhase_preserves_dest (chunks : List String) :
    ∀ f ∈ openTmp :: chunks.map writeChunk, ∀ s : FS, (f s).dest = s.dest := by
  intro f hf s
  rcases List.mem_cons.mp hf with rfl | hf
  · rfl
  · obtain ⟨c, _, rfl⟩ := List.mem_map.mp hf
    rfl

theorem runSteps_writeChunks (chunks : List String) (s : FS) (acc : String)
    (h : s.tmp = some acc) :
    runSteps (chunks.map writeChunk) s
      = { s with tmp := some (acc ++ concatAll chunks) } := by
  induction chunks generalizing s acc with
  | nil =>
      simp only [List.map_nil, concatAll]
      cases s
      simp_all [runSteps]
  | cons c cs ih =>
      have hstep : runSteps ((c :: cs).map writeChunk) s
          = runSteps (cs.map writeChunk) (writeChunk c s) := rfl
      have htmp : (writeChunk c s).tmp = some (acc ++ c) := by
        simp [writeChunk, h]
      rw [hstep, ih (writeChunk c s) (acc ++ c) htmp]
      simp [writeChunk, concatAll, String.append_assoc]

/-- C7: every checkpoint save writes the full serialized snapshot to the
temporary sibling path and then atomically renames it over the
destination: after any strict prefix of the save's steps the destination
still holds the prior snapshot, and after the full sequence it holds
exactly the complete new serialized content — a reader of the destination
never observes a partially written file. -/
theorem c7_checkpoint_atomic (chunks : List String) (fs0 : FS)
    (pre : List (FS → FS)) (h1 : pre <+: saveSteps chunks)
    (h2 : pre ≠ saveSteps chunks) :
    (runSteps pre fs0).dest = fs0.dest
    ∧ (runSteps (saveSteps chunks) fs0).dest = some (concatAll chunks) := by
  constructor
  · have hfull : (saveSteps chunks).length = chunks.length + 2 := by
      simp [saveSteps]
    have hlen : pre.length ≤ (openTmp :: chunks.map writeChunk).length := by
      have ha := h1.length_le
      rw [hfull] at ha
      simp only [List.length_cons, List.length_map]
      by_contra hc
      push_neg at hc
      have heq : pre.length = (saveSteps chunks).length := by
        rw [hfull]; omega
      exact h2 (h1.eq_of_length heq)
    have hpre : pre <+: openTmp :: chunks.map writeChunk :=
      List.prefix_of_prefix_length_le h1
        (by simp [saveSteps])
        hlen
    exact runSteps_dest_of_preserve pre fs0 fun f hf s =>
      writePhase_preserves_dest chunks f (hpre.subset hf) s
  · have hsplit : runSteps (saveSteps chunks) fs0
        = renameStep (runSteps (chunks.map writeChunk) (openTmp fs0)) := by
      simp [saveSteps, runSteps, List.foldl_append]
    rw [hsplit, runSteps_writeChunks chunks (openTmp fs0) "" rfl]
    simp [renameStep]

/-- Witness for c7_checkpoint_atomic: the empty prefix of a save of one
chunk, from a destination holding a prior snapshot. -/
theorem c7_checkpoint_atomic_witness :
    (runSteps [] (FS.mk (some "old") none)).dest = (FS.mk (some "old") none).dest
    ∧ (runSteps (saveSteps ["ck"]) (FS.mk (some "old") none)).dest
        = some (concatAll ["ck"]) :=
  c7_checkpoint_atomic ["ck"] (FS.mk (some "old") none) []
    List.nil_prefix
    (by
      intro h
      have := congrArg List.length h
      simp [saveSteps] at this)

/-- A queue item as dequeued by a worker: an (index, url) pair, or the
termination sentinel None (scraper.py lines 306-310 and 461). -/
abbrev QItem := Option (Nat × String)

/-- scraper.py lines 296-337: the worker loop over the successive queue
items this worker dequeues (queue and scheduler are external; items lists
this worker's dequeues in order).  run url is the outcome of scrape_one
for url: a finalized row, or an exception, which the try/except of lines
311-333 catches and logs without writing.  Returns the results map after
the loop together with the number of queue.task_done() calls performed:
one in the finally block per processed item (line 337) and one for the
sentinel before exiting (line 308).  The politeness sleep does not affect
the result and is not modelled; a worker whose item list runs out without
a sentinel is blocked on queue.get() and performs no further task_done
call. -/
def workerLoop (run : String → Except String Row) :
    List QItem → RMap → RMap × Nat
  | [], results => (results, 0)
  | none :: _, results => (results, 1)
  | some (_, url) :: rest, results =>
      let results1 :=
        match run url with
        | Except.ok data => aInsert results url data
        | Except.error _ => results
      let out := workerLoop run rest results1
      (out.1, out.2 + 1)

/-- The per-item effect of the worker loop on the results map: a
successful item writes its row at its url, a raising item writes
nothing. -/
def applyOutcomes (run : String → Except String Row)
    (itemsList : List (Nat × String)) (m : RMap) : RMap :=
  itemsList.foldl
    (fun m p =>
      match run p.2 with
      | Except.ok data => aInsert m p.2 data
      | Except.error _ => m)
    m

/-- C10: a worker that dequeues the given items followed by the
termination sentinel calls queue.task_done() exactly once per dequeued
item (items plus one for the sentinel) — so the orchestrator's
queue.join() and the sentinel protocol complete — and the results map it
leaves behind is exactly the per-item fold in which an item whose
processing raises contributes nothing (its key is simply absent unless
written elsewhere) while the loop continues with the remaining items. -/
theorem c10_worker_task_done (run : String → Except String Row)
    (itemsList : List (Nat × String)) (results0 : RMap) :
    (workerLoop run (itemsList.map some ++ [none]) results0).2
        = itemsList.length + 1
    ∧ (workerLoop run (itemsList.map some ++ [none]) results0).1
        = applyOutcomes run itemsList results0 := by
  induction itemsList generalizing results0 with
  | nil => exact ⟨rfl, rfl⟩
  | cons p ps ih =>
      obtain ⟨idx, url⟩ := p
      simp only [List.map_cons, List.cons_append, workerLoop, applyOutcomes,
        List.foldl_cons, List.length_cons]
      cases hr : run url with
      | ok data =>
          have h := ih (aInsert results0 url data)
          simp only [applyOutcomes] at h
          simp [hr, h.1, h.2]
      | error e =>
          have h := ih results0
          simp only [applyOutcomes] at h
          simp [hr, h.1, h.2]
